import Mathlib

/-!
Verification of the DeepResearch reasoning core.

A shallow embedding, in Lean 4, of the reasoning core of the DeepResearch
repository: the `ResearchStateManager` (thought log, reasoning tree, cursor),
the `ReasoningEngine` (path generation, best-path selection, tool selection,
result evaluation, next-action policy, the ReAct cycle) and the `DeepSearch`
research loop with its termination policy.

Modelling conventions:
* JavaScript numbers are embedded as rationals (`Rat`); all comparisons and
  clamps used by the code are exact at the values involved.
* `uuidv4()` is modelled by a fresh-id counter `nextId` carried in the state:
  the only property the code relies on is freshness of generated ids.
* The mutable `currentNode` pointer is modelled as a path (`cursor`, a list of
  child indices) into the reasoning tree; a pointer is exactly a location.
* Oracle calls (`ai.generate`) are modelled by passing their outcome as an
  explicit parameter: `Except String …` for calls that may throw, with
  `Option` nested for structured calls that may yield a null output.
* Thrown JavaScript exceptions are `Except.error` carrying the message.
* Wall-clock timestamps and console logging are not modelled.
-/

namespace DeepResearch

/-- The three kinds of thought recorded by the state manager
(`type` field of `Thought` in `src/types/index.ts`). -/
inductive TType where
  | thought
  | action
  | observation
deriving DecidableEq, Repr

/-- A `Thought` record (`src/types/index.ts`): id, kind, content, optional
confidence and optional parent id.  The wall-clock `timestamp` field is not
modelled. -/
structure Thought where
  id : Nat
  kind : TType
  content : String
  confidence : Option Rat
  parentId : Option Nat
deriving DecidableEq, Repr

/-- The per-node data of a `ReasoningNode` (`src/types/index.ts`):
identifier, the thought stored at the node, the `isExplored` flag and the
node confidence (distinct from the thought confidence). -/
structure NodeLabel where
  id : Nat
  thought : Thought
  isExplored : Bool
  confidence : Rat
deriving DecidableEq, Repr

/-- A `ReasoningNode` with its ordered list of children
(`src/types/index.ts`). -/
inductive ReasoningNode where
  | node (label : NodeLabel) (children : List ReasoningNode)

/-- The label stored at the root of a reasoning(-sub)tree. -/
def ReasoningNode.label : ReasoningNode → NodeLabel
  | .node l _ => l

/-- The children of the root of a reasoning(-sub)tree. -/
def ReasoningNode.children : ReasoningNode → List ReasoningNode
  | .node _ cs => cs

mutual

/-- All node ids of a reasoning tree in depth-first (pre-)order, the order in
which `findNodeById` visits nodes. -/
def treeIds : ReasoningNode → List Nat
  | .node l cs => l.id :: forestIds cs

/-- All node ids of a forest, in depth-first order. -/
def forestIds : List ReasoningNode → List Nat
  | [] => []
  | t :: ts => treeIds t ++ forestIds ts

end

/-- Replace the element at an index of a list (identity when out of range). -/
def modifyIdx (f : ReasoningNode → ReasoningNode) :
    Nat → List ReasoningNode → List ReasoningNode
  | _, [] => []
  | 0, a :: as => f a :: as
  | n + 1, a :: as => a :: modifyIdx f n as

/-- Dereference a path (list of child indices) in a reasoning tree.  A path is
the model of a node pointer. -/
def getAt : ReasoningNode → List Nat → Option ReasoningNode
  | t, [] => some t
  | .node _ cs, i :: p =>
      match cs[i]? with
      | some c => getAt c p
      | none => none

/-- Append a new child to the node at the given path
(models `currentNode.children.push(newNode)`).  Identity when the path does
not dereference. -/
def insertAt : ReasoningNode → List Nat → ReasoningNode → ReasoningNode
  | .node l cs, [], n => .node l (cs ++ [n])
  | .node l cs, i :: p, n => .node l (modifyIdx (fun c => insertAt c p n) i cs)

/-- Update the label of the node at the given path (models in-place field
assignment on the pointed-to node).  Identity when the path does not
dereference. -/
def updateAt : ReasoningNode → List Nat → (NodeLabel → NodeLabel) → ReasoningNode
  | .node l cs, [], f => .node (f l) cs
  | .node l cs, i :: p, f => .node l (modifyIdx (fun c => updateAt c p f) i cs)

mutual

/-- Depth-first search for the path of the first node carrying a given id:
the model of `findNodeById` (`src/state/ResearchState.ts`), which checks the
node itself and then recurses into the children left to right. -/
def findPath (i : Nat) : ReasoningNode → Option (List Nat)
  | .node l cs => if l.id = i then some [] else findPathForest i cs 0

/-- Depth-first search over a forest, numbering children from `k`. -/
def findPathForest (i : Nat) : List ReasoningNode → Nat → Option (List Nat)
  | [], _ => none
  | t :: ts, k =>
      match findPath i t with
      | some p => some (k :: p)
      | none => findPathForest i ts (k + 1)

end

/-- Research status values (`ResearchStatus` in `src/types/index.ts`). -/
inductive RStatus where
  | idle
  | thinking
  | acting
  | observing
  | reporting
deriving DecidableEq, Repr

/-- The state owned by `ResearchStateManager` (`src/state/ResearchState.ts`).
`reasoningTree` is always present after construction; `cursor` is the path of
the `currentNode` pointer; `nextId` models the uuid generator (fresh ids).
The `collectedInfo` map and `finalReport` string are carried for
completeness. -/
structure ResearchStateM where
  status : RStatus
  currentTopic : String
  thoughts : List Thought
  reasoningTree : ReasoningNode
  cursor : List Nat
  collectedInfo : List (String × String)
  finalReport : String
  currentStep : String
  stepDetails : List String
  nextId : Nat

/-- JavaScript `x || 0.5` on an optional number: `undefined` and `0` are
falsy, so both fall back to `0.5`. -/
def jsOr (c : Option Rat) : Rat :=
  match c with
  | some v => if v = 0 then 1 / 2 else v
  | none => 1 / 2

/-- The `ResearchStateManager` constructor together with
`initReasoningTree`: root thought (id 0), root node with neutral confidence
0.5, cursor at the root, the root thought pushed on the log. -/
def initState (topic : String) : ResearchStateM :=
  let rootThought : Thought :=
    { id := 0, kind := .thought
      content := "Initial research plan for topic: " ++ topic
      confidence := none, parentId := none }
  { status := .idle
    currentTopic := topic
    thoughts := [rootThought]
    reasoningTree := .node
      { id := 0, thought := rootThought, isExplored := false, confidence := 1 / 2 } []
    cursor := []
    collectedInfo := []
    finalReport := ""
    currentStep := ""
    stepDetails := []
    nextId := 1 }

/-- `updateStatus(status, step, detail?)`: set status and step, push the
detail when present. -/
def updateStatus (st : ResearchStateM) (s : RStatus) (step : String)
    (detail : Option String) : ResearchStateM :=
  { st with
    status := s
    currentStep := step
    stepDetails :=
      match detail with
      | some d => st.stepDetails ++ [d]
      | none => st.stepDetails }

/-- `addThought(type, content, confidence?)` (`src/state/ResearchState.ts`):
create a thought with a fresh id whose `parentId` is the current node id,
push it on the log, and — when the current node exists — attach a new
unexplored child node there (node confidence `confidence || 0.5`) and move
the cursor onto the new node.  Returns the updated state and the created
thought. -/
def addThought (st : ResearchStateM) (kind : TType) (content : String)
    (confidence : Option Rat) : ResearchStateM × Thought :=
  let t : Thought :=
    { id := st.nextId, kind := kind, content := content
      confidence := confidence
      parentId := (getAt st.reasoningTree st.cursor).map (fun n => n.label.id) }
  match getAt st.reasoningTree st.cursor with
  | some cur =>
      let newNode : ReasoningNode :=
        .node { id := t.id, thought := t, isExplored := false
                confidence := jsOr confidence } []
      ({ st with
          thoughts := st.thoughts ++ [t]
          reasoningTree := insertAt st.reasoningTree st.cursor newNode
          cursor := st.cursor ++ [cur.children.length]
          nextId := st.nextId + 1 }, t)
  | none =>
      ({ st with thoughts := st.thoughts ++ [t], nextId := st.nextId + 1 }, t)

/-- `navigateToNode(nodeId)` (`src/state/ResearchState.ts`): depth-first
search from the root; on success move the cursor there and return `true`,
otherwise return `false` leaving the state untouched. -/
def navigateToNode (st : ResearchStateM) (i : Nat) : ResearchStateM × Bool :=
  match findPath i st.reasoningTree with
  | some p => ({ st with cursor := p }, true)
  | none => (st, false)

/-- The confidence nudge performed by `markCurrentNodeExplored`:
`min(c + 0.2, 1.0)` on success, `max(c - 0.2, 0.1)` on failure. -/
def nudge (c : Rat) (success : Bool) : Rat :=
  if success then min (c + 1 / 5) 1 else max (c - 1 / 5) (1 / 10)

/-- `markCurrentNodeExplored(success)` (`src/state/ResearchState.ts`): set
`isExplored` on the current node and nudge its confidence.  No-op when the
current node does not exist. -/
def markCurrentNodeExplored (st : ResearchStateM) (success : Bool) :
    ResearchStateM :=
  match getAt st.reasoningTree st.cursor with
  | some _ =>
      { st with
        reasoningTree := updateAt st.reasoningTree st.cursor
          (fun l => { l with isExplored := true
                             confidence := nudge l.confidence success }) }
  | none => st

mutual

/-- Map a function over every node label of a tree. -/
def mapLabels (f : NodeLabel → NodeLabel) : ReasoningNode → ReasoningNode
  | .node l cs => .node (f l) (mapLabelsForest f cs)

/-- Map a function over every node label of a forest. -/
def mapLabelsForest (f : NodeLabel → NodeLabel) :
    List ReasoningNode → List ReasoningNode
  | [] => []
  | t :: ts => mapLabels f t :: mapLabelsForest f ts

end

/-- The effect of `observation.confidence = score` in `executeReActCycle`:
the thought object is shared between the log and the tree node, so the
assignment is visible in both. -/
def patchThoughtConfidence (st : ResearchStateM) (i : Nat) (v : Rat) :
    ResearchStateM :=
  let patch : Thought → Thought :=
    fun t => if t.id = i then { t with confidence := some v } else t
  { st with
    thoughts := st.thoughts.map patch
    reasoningTree := mapLabels (fun l => { l with thought := patch l.thought })
      st.reasoningTree }

/-- `storeInfo(key, value)` (`src/state/ResearchState.ts`). -/
def storeInfo (st : ResearchStateM) (key value : String) : ResearchStateM :=
  { st with collectedInfo := st.collectedInfo ++ [(key, value)] }

/-- `setFinalReport(report)` (`src/state/ResearchState.ts`). -/
def setFinalReport (st : ResearchStateM) (report : String) : ResearchStateM :=
  { st with finalReport := report }

/-! Section: The reasoning engine (`src/reasoning/ReasoningEngine.ts`) -/

/-- The `promiseLevel` enum of the structured path-generation output. -/
inductive PromiseLevel where
  | low
  | medium
  | high
deriving DecidableEq, Repr

/-- One element of the structured output of the path-generation oracle. -/
structure PathGen where
  path : String
  rationale : String
  promiseLevel : PromiseLevel
deriving DecidableEq, Repr

/-- The confidence assigned per promise level in `generateReasoningPaths`:
high 0.8, medium 0.5, otherwise 0.3. -/
def promiseConfidence : PromiseLevel → Rat
  | .high => 4 / 5
  | .medium => 1 / 2
  | .low => 3 / 10

/-- The `for (const path of output)` loop of `generateReasoningPaths`: one
`addThought` per generated path, collecting the created thoughts in order. -/
def addPathThoughts : ResearchStateM → List PathGen → ResearchStateM × List Thought
  | st, [] => (st, [])
  | st, p :: ps =>
      let r1 := addThought st .thought
        ("Path: " ++ p.path ++ "\nRationale: " ++ p.rationale)
        (some (promiseConfidence p.promiseLevel))
      let r2 := addPathThoughts r1.1 ps
      (r2.1, r1.2 :: r2.2)

/-- `generateReasoningPaths(context)` with the default `numPaths = 3` (the
value used by `executeReActCycle`): update the status, consult the structured
oracle (`reply`), throw when the call fails or its output is null, otherwise
record one thought per path.  The returned `Except` is the thrown-or-returned
outcome; the state is returned in either case since mutations performed
before a throw persist. -/
def generateReasoningPaths (st : ResearchStateM)
    (reply : Except String (Option (List PathGen))) :
    ResearchStateM × Except String (List Thought) :=
  let st0 := updateStatus st .thinking "Reasoning Paths"
    (some "Generating 3 potential reasoning paths")
  match reply with
  | .error e => (st0, .error e)
  | .ok none => (st0, .error "Failed to generate reasoning paths")
  | .ok (some ps) =>
      let r := addPathThoughts st0 ps
      (r.1, .ok r.2)

/-- `confidence || 0.5` as used on thoughts by `selectBestPath`. -/
def confOr (t : Thought) : Rat := jsOr t.confidence

/-- `selectBestPath(paths)`: null on an empty list, otherwise the head of the
list stably sorted by `confidence || 0.5` descending — that is, the first
thought of maximal confidence. -/
def selectBestPath : List Thought → Option Thought
  | [] => none
  | p :: ps => some (ps.foldl (fun best q => if confOr q > confOr best then q else best) p)

/-- The decimal value of a list of digit characters. -/
def digitsVal (ds : List Char) : Nat :=
  ds.foldl (fun n c => 10 * n + (c.toNat - 48)) 0

/-- The suffix of the text at the first position where the JavaScript regex
`([0-9]*\.?[0-9]+)` can start a match: a digit, or a dot followed by a
digit. -/
def findNumStart : List Char → Option (List Char)
  | [] => none
  | c :: cs =>
      if c.isDigit then some (c :: cs)
      else if c == '.' && (match cs with | d :: _ => d.isDigit | [] => false) then
        some (c :: cs)
      else findNumStart cs

/-- The token matched by `([0-9]*\.?[0-9]+)` from a valid start position:
a maximal digit run, then a dot and a second maximal digit run when the dot
is immediately followed by a digit (otherwise the regex backtracks over the
optional dot). -/
def numToken (l : List Char) : List Char :=
  let d1 := l.takeWhile Char.isDigit
  let rest := l.dropWhile Char.isDigit
  match rest with
  | '.' :: r2 =>
      let d2 := r2.takeWhile Char.isDigit
      if d2 = [] then d1 else d1 ++ '.' :: d2
  | _ => d1

/-- `parseFloat` on a token of shape `digits`, `digits.digits` or
`.digits`, as an exact rational. -/
def parseFloatQ (tok : List Char) : Rat :=
  let d1 := tok.takeWhile Char.isDigit
  let rest := tok.dropWhile Char.isDigit
  match rest with
  | '.' :: d2 => (digitsVal d1 : Rat) + (digitsVal d2 : Rat) / (10 : Rat) ^ d2.length
  | _ => (digitsVal d1 : Rat)

/-- The score computation of `evaluateResults(results, pathThought)`: take
the first number occurring in the oracle reply (`text.match(/([0-9]*\.?[0-9]+)/)`,
default 0.5 when there is none) and clamp it to the unit interval with
`Math.max(0, Math.min(1, score))`. -/
def evaluateScore (text : String) : Rat :=
  let score :=
    match findNumStart text.toList with
    | some l => parseFloatQ (numToken l)
    | none => 1 / 2
  max 0 (min 1 score)

/-- The next-action decision after a cycle. -/
inductive NextAction where
  | continue
  | backtrack
  | explore_new
deriving DecidableEq, Repr

/-- `decideNextAction(currentScore)`.  The single `Math.random()` draw taken
on the branch that executes is passed in as `r` (the library guarantees
`0 ≤ r < 1`, but none of the statements below need that). -/
def decideNextAction (score r : Rat) : NextAction :=
  if score ≥ 7 / 10 then .continue
  else if score ≥ 2 / 5 then
    (if r < 7 / 10 then .continue else .explore_new)
  else if r < 1 / 2 then .backtrack
  else .explore_new

/-- The input object of a tool request.  The deterministic fallback builds
an object with a single `query` field; anything else the oracle produces is
carried opaquely. -/
inductive ToolInput where
  | queryInput (q : String)
  | other (s : String)
deriving DecidableEq, Repr

/-- The structured output of the tool-selection oracle
(`toolSelectionSchema`). -/
structure ToolSel where
  toolName : String
  reason : String
  parameters : ToolInput
deriving DecidableEq, Repr

/-- A tool request as returned by `selectTool` (`src/types/index.ts`). -/
structure ToolRequest where
  name : String
  input : ToolInput
deriving DecidableEq, Repr

/-- `toolUsageCount.set(name, (toolUsageCount.get(name) || 0) + 1)`. -/
def bumpUsage (usage : List (String × Nat)) (name : String) : List (String × Nat) :=
  if usage.any (fun kv => kv.1 = name) then
    usage.map (fun kv => if kv.1 = name then (kv.1, kv.2 + 1) else kv)
  else usage ++ [(name, 1)]

/-- `selectTool(context)` (`src/reasoning/ReasoningEngine.ts`): consult the
structured oracle inside a try block.  A null output returns null to the
caller; a successful output is turned into a request (bumping the usage
count); a thrown error is caught and answered with the deterministic
fallback — the `searchWeb` tool with the research topic as query. -/
def selectTool (topic : String) (usage : List (String × Nat))
    (reply : Except String (Option ToolSel)) :
    List (String × Nat) × Option ToolRequest :=
  match reply with
  | .ok none => (usage, none)
  | .ok (some out) =>
      (bumpUsage usage out.toolName, some { name := out.toolName, input := out.parameters })
  | .error _ =>
      (bumpUsage usage "searchWeb",
       some { name := "searchWeb", input := .queryInput topic })

/-- The oracle replies consumed by one ReAct cycle: the structured
path-generation call, the structured tool-selection call, and the free-text
evaluation call.  Each is either a thrown error or a value; structured
values may be null. -/
structure CycleOracles where
  pathsReply : Except String (Option (List PathGen))
  toolSelReply : Except String (Option ToolSel)
  evalReply : Except String String

/-- The `result` field returned by a cycle: the raw tool result (its JSON
text), or the error object built in the catch handler. -/
inductive CycleValue where
  | ok (s : String)
  | error (msg : String)
deriving DecidableEq, Repr

/-- The record returned by `executeReActCycle`. -/
structure CycleResult where
  result : CycleValue
  score : Rat
  nextAction : NextAction
deriving DecidableEq, Repr

/-- A registered tool: its name and its `handle` function (which may
throw). -/
abbrev ToolImpl := String × (ToolInput → Except String String)

/-- The try block of `executeReActCycle` (steps 3 to 6): tool selection, tool
lookup, tool execution, observation recording, evaluation, marking the
current node explored, and the next-action decision.  The state (with
whatever mutations happened before a throw) is always returned; the `Except`
component is the thrown-or-returned outcome of the block. -/
def reactTryBlock (st : ResearchStateM) (usage : List (String × Nat))
    (tools : List ToolImpl) (oc : CycleOracles) (r : Rat) :
    ResearchStateM × List (String × Nat) × Except String CycleResult :=
  match selectTool st.currentTopic usage oc.toolSelReply with
  | (usage1, none) => (st, usage1, .error "Failed to select appropriate tool")
  | (usage1, some req) =>
      let st1 := updateStatus st .acting "Tool Execution" (some ("Using " ++ req.name))
      match tools.find? (fun tl => tl.1 = req.name) with
      | none => (st1, usage1, .error ("Tool not found: " ++ req.name))
      | some tl =>
          match tl.2 req.input with
          | .error e => (st1, usage1, .error e)
          | .ok result =>
              let st2 := updateStatus st1 .observing "Result Evaluation"
                (some ("Evaluating results from " ++ req.name))
              let r3 := addThought st2 .observation
                ("Results from " ++ req.name ++ ": " ++ result) none
              match oc.evalReply with
              | .error e => (r3.1, usage1, .error e)
              | .ok replyText =>
                  let score := evaluateScore replyText
                  let st4 := patchThoughtConfidence r3.1 r3.2.id score
                  let st5 := markCurrentNodeExplored st4 (decide ((1 : Rat) / 2 ≤ score))
                  (st5, usage1,
                   .ok { result := .ok result, score := score
                         nextAction := decideNextAction score r })

/-- `executeReActCycle(context)` (`src/reasoning/ReasoningEngine.ts`).
Steps 1 and 2 — path generation and best-path selection — run before the
try block, so their failures are thrown to the caller (an `.error` overall
outcome).  Failures inside the try block are caught: a low-confidence (0.1)
error observation is appended and the cycle returns normally with the error
object, score 0.1 and next action `explore_new`. -/
def executeReActCycle (st : ResearchStateM) (usage : List (String × Nat))
    (tools : List ToolImpl) (oc : CycleOracles) (r : Rat) :
    (ResearchStateM × List (String × Nat)) × Except String CycleResult :=
  match generateReasoningPaths st oc.pathsReply with
  | (st1, .error e) => ((st1, usage), .error e)
  | (st1, .ok paths) =>
      match selectBestPath paths with
      | none => ((st1, usage), .error "Failed to select a reasoning path")
      | some _selectedPath =>
          let st2 := updateStatus st1 .thinking "Tool Selection"
            (some "Selecting appropriate tool based on reasoning")
          match reactTryBlock st2 usage tools oc r with
          | (st3, u3, .ok res) => ((st3, u3), .ok res)
          | (st3, u3, .error e) =>
              let r4 := addThought st3 .observation
                ("Error during reasoning cycle: " ++ e) (some (1 / 10))
              ((r4.1, u3), .ok { result := .error e, score := 1 / 10
                                 nextAction := .explore_new })

/-! Section: The research loop (`src/DeepSearch.ts`) -/

/-- Whether `needle` is an initial segment of `hay`. -/
def startsWithSeq : List Char → List Char → Bool
  | [], _ => true
  | _ :: _, [] => false
  | a :: as, b :: bs => a = b && startsWithSeq as bs

/-- Whether `needle` occurs contiguously in `hay`
(JavaScript `String.prototype.includes`). -/
def hasSubSeq (needle : List Char) : List Char → Bool
  | [] => startsWithSeq needle []
  | c :: cs => startsWithSeq needle (c :: cs) || hasSubSeq needle cs

/-- `shouldContinueResearch(context)` (`src/DeepSearch.ts`): ask the
sufficiency oracle and return `text.toUpperCase().includes("YES")`.  Per the
prompt protocol, a reply containing YES means more research is needed (the
gathered information is not yet sufficient); a NO reply means sufficient.
Upper-casing is modelled per character, which agrees with
`String.prototype.toUpperCase` on ASCII text. -/
def shouldContinueResearch (reply : String) : Bool :=
  hasSubSeq "YES".toList (reply.toList.map Char.toUpper)

/-- The configured maximum number of reasoning cycles
(`maxReasoningCycles = 20` in `src/DeepSearch.ts`). -/
def maxReasoningCycles : Nat := 20

/-- The `while (reasoningCycles < maxReasoningCycles)` loop of `research`,
restricted to the data its control flow reads.  `n` is `reasoningCycles`;
`remaining` is `maxReasoningCycles - n`, so `remaining > 0` is exactly the
loop guard.  `scores k` is the score produced by the k-th ReAct cycle and
`replies k` the sufficiency-oracle reply text consulted (when reached) after
cycle k; both are inputs because they come from oracle calls.  The loop
breaks after cycle `n+1` exactly when its score strictly exceeds 0.8, more
than 5 cycles have run, and `shouldContinueResearch` answers false.  Returns
the number of cycles executed. -/
def researchLoopFrom (scores : Nat → Rat) (replies : Nat → String) :
    Nat → Nat → Nat
  | 0, n => n
  | remaining + 1, n =>
      if (4 : Rat) / 5 < scores (n + 1) ∧ 5 < n + 1 ∧
          shouldContinueResearch (replies (n + 1)) = false then n + 1
      else researchLoopFrom scores replies remaining (n + 1)

/-- The number of ReAct cycles the `research` loop executes, given the
per-cycle scores and sufficiency replies. -/
def researchCycles (scores : Nat → Rat) (replies : Nat → String) : Nat :=
  researchLoopFrom scores replies maxReasoningCycles 0

/-! Section: Tree lemmas -/

theorem forestIds_append (xs ys : List ReasoningNode) :
    forestIds (xs ++ ys) = forestIds xs ++ forestIds ys := by
  induction xs with
  | nil => simp [forestIds]
  | cons t ts ih => simp [forestIds, ih]

theorem modifyIdx_get_self (f : ReasoningNode → ReasoningNode) :
    ∀ (cs : List ReasoningNode) (i : Nat) (c : ReasoningNode),
      cs[i]? = some c → (modifyIdx f i cs)[i]? = some (f c) := by
  intro cs
  induction cs with
  | nil => intro i c h; simp at h
  | cons a as ih =>
      intro i c h
      cases i with
      | zero => simp at h; simp [modifyIdx, h]
      | succ n => simp at h; simpa [modifyIdx] using ih n c h

theorem getAt_insertAt_self (n : ReasoningNode) :
    ∀ (p : List Nat) (t cur : ReasoningNode), getAt t p = some cur →
      getAt (insertAt t p n) (p ++ [cur.children.length]) = some n := by
  intro p
  induction p with
  | nil =>
      intro t cur h
      simp [getAt] at h
      subst h
      cases t with
      | node l cs =>
          simp [insertAt, getAt, ReasoningNode.children, List.getElem?_concat_length]
  | cons i p ih =>
      intro t cur h
      cases t with
      | node l cs =>
          simp only [getAt] at h
          cases hc : cs[i]? with
          | none => rw [hc] at h; exact absurd h (by simp)
          | some c =>
              rw [hc] at h
              simp only [insertAt, List.cons_append, getAt,
                modifyIdx_get_self _ cs i c hc]
              exact ih c cur h

theorem forestIds_modify_perm {g : ReasoningNode → ReasoningNode} {extra : List Nat} :
    ∀ (cs : List ReasoningNode) (i : Nat) (c : ReasoningNode), cs[i]? = some c →
      (treeIds (g c)).Perm (treeIds c ++ extra) →
      (forestIds (modifyIdx g i cs)).Perm (forestIds cs ++ extra) := by
  intro cs
  induction cs with
  | nil => intro i c h; simp at h
  | cons a as ih =>
      intro i c h hg
      cases i with
      | zero =>
          simp at h
          subst h
          simp only [modifyIdx, forestIds]
          have h1 : (treeIds (g a) ++ forestIds as).Perm
              ((treeIds a ++ extra) ++ forestIds as) := hg.append_right _
          have h2 : ((treeIds a ++ extra) ++ forestIds as).Perm
              (treeIds a ++ (forestIds as ++ extra)) := by
            rw [List.append_assoc]
            exact (List.perm_append_comm).append_left _
          have h3 : treeIds a ++ (forestIds as ++ extra) =
              (treeIds a ++ forestIds as) ++ extra := (List.append_assoc _ _ _).symm
          exact (h1.trans h2).trans (h3 ▸ List.Perm.refl _)
      | succ m =>
          simp at h
          simp only [modifyIdx, forestIds]
          have h1 : (treeIds a ++ forestIds (modifyIdx g m as)).Perm
              (treeIds a ++ (forestIds as ++ extra)) :=
            (ih m c h hg).append_left _
          have h2 : treeIds a ++ (forestIds as ++ extra) =
              (treeIds a ++ forestIds as) ++ extra := (List.append_assoc _ _ _).symm
          exact h1.trans (h2 ▸ List.Perm.refl _)

theorem treeIds_insertAt_perm (n : ReasoningNode) :
    ∀ (p : List Nat) (t cur : ReasoningNode), getAt t p = some cur →
      (treeIds (insertAt t p n)).Perm (treeIds t ++ treeIds n) := by
  intro p
  induction p with
  | nil =>
      intro t cur _
      cases t with
      | node l cs =>
          simp [insertAt, treeIds, forestIds_append, forestIds]
  | cons i p ih =>
      intro t cur h
      cases t with
      | node l cs =>
          simp only [getAt] at h
          cases hc : cs[i]? with
          | none => rw [hc] at h; exact absurd h (by simp)
          | some c =>
              rw [hc] at h
              simp only [insertAt, treeIds, List.cons_append]
              exact (forestIds_modify_perm cs i c hc (ih c cur h)).cons _

theorem insertAt_label (t : ReasoningNode) (p : List Nat) (n : ReasoningNode) :
    (insertAt t p n).label = t.label := by
  cases t with
  | node l cs => cases p <;> rfl

theorem forestIds_modify_eq {g : ReasoningNode → ReasoningNode}
    (hg : ∀ c, treeIds (g c) = treeIds c) :
    ∀ (i : Nat) (cs : List ReasoningNode), forestIds (modifyIdx g i cs) = forestIds cs := by
  intro i cs
  induction cs generalizing i with
  | nil => cases i <;> rfl
  | cons a as ih =>
      cases i with
      | zero => simp [modifyIdx, forestIds, hg]
      | succ m => simp [modifyIdx, forestIds, ih]

theorem treeIds_updateAt {f : NodeLabel → NodeLabel} (hf : ∀ l, (f l).id = l.id) :
    ∀ (p : List Nat) (t : ReasoningNode), treeIds (updateAt t p f) = treeIds t := by
  intro p
  induction p with
  | nil => intro t; cases t with
      | node l cs => simp [updateAt, treeIds, hf]
  | cons i p ih =>
      intro t
      cases t with
      | node l cs => simp [updateAt, treeIds, forestIds_modify_eq (fun c => ih c) i cs]

theorem updateAt_label_id {f : NodeLabel → NodeLabel} (hf : ∀ l, (f l).id = l.id)
    (t : ReasoningNode) (p : List Nat) :
    (updateAt t p f).label.id = t.label.id := by
  cases t with
  | node l cs => cases p <;> simp [updateAt, ReasoningNode.label, hf]

theorem getAt_updateAt_self (f : NodeLabel → NodeLabel) :
    ∀ (p : List Nat) (t cur : ReasoningNode), getAt t p = some cur →
      getAt (updateAt t p f) p = some (.node (f cur.label) cur.children) := by
  intro p
  induction p with
  | nil =>
      intro t cur h
      simp [getAt] at h
      subst h
      cases t with
      | node l cs => simp [updateAt, getAt, ReasoningNode.label, ReasoningNode.children]
  | cons i p ih =>
      intro t cur h
      cases t with
      | node l cs =>
          simp only [getAt] at h
          cases hc : cs[i]? with
          | none => rw [hc] at h; exact absurd h (by simp)
          | some c =>
              rw [hc] at h
              simp only [updateAt, getAt, modifyIdx_get_self _ cs i c hc]
              exact ih c cur h

mutual

theorem treeIds_mapLabels {f : NodeLabel → NodeLabel} (hf : ∀ l, (f l).id = l.id) :
    ∀ t : ReasoningNode, treeIds (mapLabels f t) = treeIds t
  | .node l cs => by
      simp only [mapLabels, treeIds, hf, forestIds_mapLabelsForest hf cs]

theorem forestIds_mapLabelsForest {f : NodeLabel → NodeLabel}
    (hf : ∀ l, (f l).id = l.id) :
    ∀ cs : List ReasoningNode, forestIds (mapLabelsForest f cs) = forestIds cs
  | [] => rfl
  | t :: ts => by
      simp only [mapLabelsForest, forestIds, treeIds_mapLabels hf t,
        forestIds_mapLabelsForest hf ts]

end

theorem mapLabels_label_id {f : NodeLabel → NodeLabel} (hf : ∀ l, (f l).id = l.id)
    (t : ReasoningNode) : (mapLabels f t).label.id = t.label.id := by
  cases t with
  | node l cs => simp [mapLabels, ReasoningNode.label, hf]

theorem mapLabelsForest_get (f : NodeLabel → NodeLabel) :
    ∀ (cs : List ReasoningNode) (i : Nat),
      (mapLabelsForest f cs)[i]? = (cs[i]?).map (mapLabels f) := by
  intro cs
  induction cs with
  | nil => intro i; simp [mapLabelsForest]
  | cons a as ih =>
      intro i
      cases i with
      | zero => simp [mapLabelsForest]
      | succ m => simp [mapLabelsForest, ih]

theorem getAt_mapLabels (f : NodeLabel → NodeLabel) :
    ∀ (p : List Nat) (t : ReasoningNode),
      getAt (mapLabels f t) p = (getAt t p).map (mapLabels f) := by
  intro p
  induction p with
  | nil => intro t; simp [getAt]
  | cons i p ih =>
      intro t
      cases t with
      | node l cs =>
          simp only [mapLabels, getAt, mapLabelsForest_get]
          cases hc : cs[i]? with
          | none => rfl
          | some c => simp [ih]

mutual

theorem findPath_sound (i : Nat) :
    ∀ (t : ReasoningNode) (p : List Nat), findPath i t = some p →
      ∃ s, getAt t p = some s ∧ s.label.id = i
  | .node l cs, p => by
      intro h
      simp only [findPath] at h
      by_cases hl : l.id = i
      · simp only [hl, if_pos rfl] at h
        cases h
        exact ⟨.node l cs, rfl, hl⟩
      · rw [if_neg hl] at h
        obtain ⟨j, q, hp, c, hc, s, hs, hid⟩ := findPathForest_sound i cs 0 p h
        refine ⟨s, ?_, hid⟩
        subst hp
        simp only [getAt, Nat.zero_add, hc]
        exact hs

theorem findPathForest_sound (i : Nat) :
    ∀ (ts : List ReasoningNode) (k : Nat) (p : List Nat),
      findPathForest i ts k = some p →
      ∃ j q, p = (k + j) :: q ∧ ∃ c, ts[j]? = some c ∧
        ∃ s, getAt c q = some s ∧ s.label.id = i
  | [], k, p => by intro h; simp [findPathForest] at h
  | t :: ts, k, p => by
      intro h
      simp only [findPathForest] at h
      cases hf : findPath i t with
      | some q =>
          rw [hf] at h
          cases h
          obtain ⟨s, hs, hid⟩ := findPath_sound i t q hf
          exact ⟨0, q, by simp, t, by simp, s, hs, hid⟩
      | none =>
          rw [hf] at h
          obtain ⟨j, q, hp, c, hc, s, hs, hid⟩ := findPathForest_sound i ts (k + 1) p h
          refine ⟨j + 1, q, ?_, c, by simpa using hc, s, hs, hid⟩
          rw [hp]
          congr 1
          omega

end

mutual

theorem findPath_none (i : Nat) :
    ∀ t : ReasoningNode, findPath i t = none ↔ i ∉ treeIds t
  | .node l cs => by
      simp only [findPath, treeIds, List.mem_cons]
      by_cases hl : l.id = i
      · simp [hl]
      · rw [if_neg hl]
        rw [findPathForest_none i cs 0]
        constructor
        · intro hm hor
          rcases hor with h1 | h2
          · exact hl h1.symm
          · exact hm h2
        · intro hm hf
          exact hm (Or.inr hf)

theorem findPathForest_none (i : Nat) :
    ∀ (ts : List ReasoningNode) (k : Nat),
      findPathForest i ts k = none ↔ i ∉ forestIds ts
  | [], k => by simp [findPathForest, forestIds]
  | t :: ts, k => by
      simp only [findPathForest, forestIds, List.mem_append]
      cases hf : findPath i t with
      | some q =>
          have hi : i ∈ treeIds t := by
            by_contra hni
            rw [← findPath_none i t] at hni
            rw [hf] at hni
            exact absurd hni (by simp)
          simp [hi]
      | none =>
          have hni : i ∉ treeIds t := (findPath_none i t).mp hf
          rw [findPathForest_none i ts (k + 1)]
          constructor
          · intro hm hor
            rcases hor with h1 | h2
            · exact hni h1
            · exact hm h2
          · intro hm hf2
            exact hm (Or.inr hf2)

end

theorem mem_forestIds_of_get :
    ∀ (cs : List ReasoningNode) (j : Nat) (c : ReasoningNode), cs[j]? = some c →
      ∀ x, x ∈ treeIds c → x ∈ forestIds cs := by
  intro cs
  induction cs with
  | nil => intro j c h; simp at h
  | cons a as ih =>
      intro j c h x hx
      cases j with
      | zero =>
          simp at h
          subst h
          simp [forestIds, List.mem_append, hx]
      | succ m =>
          simp at h
          simp only [forestIds, List.mem_append]
          exact Or.inr (ih m c h x hx)

theorem getAt_mem_treeIds :
    ∀ (p : List Nat) (t s : ReasoningNode), getAt t p = some s →
      s.label.id ∈ treeIds t := by
  intro p
  induction p with
  | nil =>
      intro t s h
      simp [getAt] at h
      subst h
      cases t with
      | node l cs => simp [treeIds, ReasoningNode.label]
  | cons i p ih =>
      intro t s h
      cases t with
      | node l cs =>
          simp only [getAt] at h
          cases hc : cs[i]? with
          | none => rw [hc] at h; exact absurd h (by simp)
          | some c =>
              rw [hc] at h
              simp only [treeIds, List.mem_cons]
              exact Or.inr (mem_forestIds_of_get cs i c hc _ (ih c s h))

theorem nodup_child :
    ∀ (cs : List ReasoningNode) (i : Nat) (c : ReasoningNode),
      (forestIds cs).Nodup → cs[i]? = some c → (treeIds c).Nodup := by
  intro cs
  induction cs with
  | nil => intro i c _ h; simp at h
  | cons a as ih =>
      intro i c hnd h
      simp only [forestIds] at hnd
      cases i with
      | zero =>
          simp at h
          subst h
          exact hnd.of_append_left
      | succ m =>
          simp at h
          exact ih m c hnd.of_append_right h

theorem disjoint_children :
    ∀ (cs : List ReasoningNode) (i j : Nat) (ci cj : ReasoningNode),
      (forestIds cs).Nodup → cs[i]? = some ci → cs[j]? = some cj → i ≠ j →
      ∀ x, x ∈ treeIds ci → x ∈ treeIds cj → False := by
  intro cs
  induction cs with
  | nil => intro i j ci cj _ h; simp at h
  | cons a as ih =>
      intro i j ci cj hnd hi hj hij x hxi hxj
      simp only [forestIds] at hnd
      have hdisj := List.disjoint_of_nodup_append hnd
      cases i with
      | zero =>
          simp at hi
          subst hi
          cases j with
          | zero => exact hij rfl
          | succ m =>
              simp at hj
              exact hdisj hxi (mem_forestIds_of_get as m cj hj x hxj)
      | succ n =>
          simp at hi
          cases j with
          | zero =>
              simp at hj
              subst hj
              exact hdisj hxj (mem_forestIds_of_get as n ci hi x hxi)
          | succ m =>
              simp at hj
              exact ih n m ci cj hnd.of_append_right hi hj
                (fun hnm => hij (by rw [hnm])) x hxi hxj

theorem getAt_id_inj :
    ∀ (p : List Nat) (t : ReasoningNode) (q : List Nat) (s s' : ReasoningNode),
      (treeIds t).Nodup → getAt t p = some s → getAt t q = some s' →
      s.label.id = s'.label.id → p = q := by
  intro p
  induction p with
  | nil =>
      intro t q s s' hnd hp hq hid
      simp [getAt] at hp
      subst hp
      cases q with
      | nil => rfl
      | cons j q' =>
          exfalso
          cases t with
          | node l cs =>
              simp only [getAt] at hq
              cases hc : cs[j]? with
              | none => rw [hc] at hq; exact absurd hq (by simp)
              | some c =>
                  rw [hc] at hq
                  simp only [treeIds, List.nodup_cons] at hnd
                  have hmem : s'.label.id ∈ treeIds c := getAt_mem_treeIds q' c s' hq
                  have : l.id ∈ forestIds cs := by
                    rw [ReasoningNode.label] at hid
                    rw [hid]
                    exact mem_forestIds_of_get cs j c hc _ hmem
                  exact hnd.1 this
  | cons i p' ih =>
      intro t q s s' hnd hp hq hid
      cases t with
      | node l cs =>
          simp only [getAt] at hp
          cases hci : cs[i]? with
          | none => rw [hci] at hp; exact absurd hp (by simp)
          | some ci =>
              rw [hci] at hp
              cases q with
              | nil =>
                  exfalso
                  simp [getAt] at hq
                  subst hq
                  simp only [treeIds, List.nodup_cons] at hnd
                  have hmem : s.label.id ∈ treeIds ci := getAt_mem_treeIds p' ci s hp
                  have : l.id ∈ forestIds cs := by
                    rw [ReasoningNode.label] at hid
                    rw [← hid]
                    exact mem_forestIds_of_get cs i ci hci _ hmem
                  exact hnd.1 this
              | cons j q' =>
                  simp only [getAt] at hq
                  cases hcj : cs[j]? with
                  | none => rw [hcj] at hq; exact absurd hq (by simp)
                  | some cj =>
                      rw [hcj] at hq
                      simp only [treeIds, List.nodup_cons] at hnd
                      by_cases hij : i = j
                      · subst hij
                        rw [hci] at hcj
                        cases hcj
                        have := ih ci q' s s' (nodup_child cs i ci hnd.2 hci) hp hq hid
                        rw [this]
                      · exfalso
                        exact disjoint_children cs i j ci cj hnd.2 hci hcj hij
                          s.label.id (getAt_mem_treeIds p' ci s hp)
                          (hid ▸ getAt_mem_treeIds q' cj s' hq)

/-! Section: Reachable session states and the tree invariant -/

/-- The states reachable by a research session: a freshly constructed
`ResearchStateManager` followed by any sequence of its public mutating
operations (the only ways the engine and the loop touch the state). -/
inductive Reachable : ResearchStateM → Prop where
  | init (topic : String) : Reachable (initState topic)
  | add (st : ResearchStateM) (kind : TType) (content : String) (conf : Option Rat) :
      Reachable st → Reachable (addThought st kind content conf).1
  | nav (st : ResearchStateM) (i : Nat) :
      Reachable st → Reachable (navigateToNode st i).1
  | mark (st : ResearchStateM) (b : Bool) :
      Reachable st → Reachable (markCurrentNodeExplored st b)
  | patch (st : ResearchStateM) (i : Nat) (v : Rat) :
      Reachable st → Reachable (patchThoughtConfidence st i v)
  | status (st : ResearchStateM) (s : RStatus) (step : String) (d : Option String) :
      Reachable st → Reachable (updateStatus st s step d)
  | store (st : ResearchStateM) (k v : String) :
      Reachable st → Reachable (storeInfo st k v)
  | final (st : ResearchStateM) (r : String) :
      Reachable st → Reachable (setFinalReport st r)

/-- The structural invariant of a session state: node ids are pairwise
distinct, all below the fresh-id counter, the cursor dereferences, every
logged thought has its node in the tree, and the root is still the session
root (id 0). -/
def TreeInv (st : ResearchStateM) : Prop :=
  (treeIds st.reasoningTree).Nodup ∧
  (∀ i ∈ treeIds st.reasoningTree, i < st.nextId) ∧
  (∃ cur, getAt st.reasoningTree st.cursor = some cur) ∧
  (∀ t ∈ st.thoughts, t.id ∈ treeIds st.reasoningTree) ∧
  st.reasoningTree.label.id = 0

theorem reachable_treeInv : ∀ st : ResearchStateM, Reachable st → TreeInv st := by
  intro st h
  induction h with
  | init topic =>
      refine ⟨?_, ?_, ⟨_, rfl⟩, ?_, rfl⟩
      · simp [initState, treeIds, forestIds]
      · intro i hi
        simp [initState, treeIds, forestIds] at hi
        simp [initState, hi]
      · intro t ht
        simp [initState] at ht
        simp [initState, treeIds, forestIds, ht]
  | add st kind content conf hst ih =>
      obtain ⟨hnd, hbound, ⟨cur, hcur⟩, hth, hroot⟩ := ih
      have hids := treeIds_insertAt_perm
        (.node { id := st.nextId
                 thought := { id := st.nextId, kind := kind, content := content
                              confidence := conf
                              parentId := (some cur).map (fun n => n.label.id) }
                 isExplored := false, confidence := jsOr conf } [])
        st.cursor st.reasoningTree cur hcur
      simp only [treeIds, forestIds] at hids
      simp only [addThought, hcur, TreeInv]
      refine ⟨?_, ?_, ?_, ?_, ?_⟩
      · refine (hids.nodup_iff).mpr ?_
        simp only [List.nodup_append, List.nodup_cons, List.nodup_nil]
        refine ⟨hnd, by simp, ?_⟩
        intro x hx
        simp only [List.mem_singleton]
        intro hx2
        exact absurd (hbound x hx) (by rw [hx2]; omega)
      · intro i hi
        rcases List.mem_append.mp (hids.mem_iff.mp hi) with h1a | h1b
        · exact Nat.lt_succ_of_lt (hbound i h1a)
        · simp at h1b
          omega
      · exact ⟨_, getAt_insertAt_self _ st.cursor st.reasoningTree cur hcur⟩
      · intro t ht
        rcases List.mem_append.mp ht with h1 | h2
        · exact hids.mem_iff.mpr (List.mem_append.mpr (Or.inl (hth t h1)))
        · simp only [List.mem_singleton] at h2
          subst h2
          exact hids.mem_iff.mpr (List.mem_append.mpr (Or.inr (by simp)))
      · rw [insertAt_label]
        exact hroot
  | nav st i hst ih =>
      obtain ⟨hnd, hbound, ⟨cur, hcur⟩, hth, hroot⟩ := ih
      simp only [navigateToNode]
      cases hf : findPath i st.reasoningTree with
      | none => exact ⟨hnd, hbound, ⟨cur, hcur⟩, hth, hroot⟩
      | some p =>
          obtain ⟨s, hs, _⟩ := findPath_sound i st.reasoningTree p hf
          exact ⟨hnd, hbound, ⟨s, hs⟩, hth, hroot⟩
  | mark st b hst ih =>
      obtain ⟨hnd, hbound, ⟨cur, hcur⟩, hth, hroot⟩ := ih
      have hf : ∀ l : NodeLabel,
          ({ l with isExplored := true, confidence := nudge l.confidence b } : NodeLabel).id
            = l.id := fun _ => rfl
      simp only [markCurrentNodeExplored, hcur]
      rw [TreeInv]
      simp only [treeIds_updateAt hf]
      refine ⟨hnd, hbound, ⟨_, getAt_updateAt_self _ st.cursor st.reasoningTree cur hcur⟩,
        hth, ?_⟩
      rw [updateAt_label_id hf]
      exact hroot
  | patch st i v hst ih =>
      obtain ⟨hnd, hbound, ⟨cur, hcur⟩, hth, hroot⟩ := ih
      have hg : ∀ l : NodeLabel,
          ({ l with thought := if l.thought.id = i
              then { l.thought with confidence := some v } else l.thought } : NodeLabel).id
            = l.id := fun _ => rfl
      rw [TreeInv]
      simp only [patchThoughtConfidence, treeIds_mapLabels hg]
      refine ⟨hnd, hbound, ?_, ?_, ?_⟩
      · exact ⟨_, by rw [getAt_mapLabels, hcur]; rfl⟩
      · intro t ht
        simp only [List.mem_map] at ht
        obtain ⟨t0, ht0, hpt⟩ := ht
        have : t.id = t0.id := by
          rw [← hpt]
          by_cases hc : t0.id = i <;> simp [hc]
        rw [this]
        exact hth t0 ht0
      · rw [mapLabels_label_id hg]
        exact hroot
  | status st s step d hst ih => exact ih
  | store st k v hst ih => exact ih
  | final st r hst ih => exact ih

/-! Section: Behaviour lemmas for the operations -/

theorem addThought_spec {st : ResearchStateM} {cur : ReasoningNode}
    (hcur : getAt st.reasoningTree st.cursor = some cur)
    (kind : TType) (content : String) (conf : Option Rat) :
    (addThought st kind content conf).2.id = st.nextId ∧
    (addThought st kind content conf).2.parentId = some cur.label.id ∧
    (addThought st kind content conf).2.confidence = conf ∧
    (addThought st kind content conf).1.cursor = st.cursor ++ [cur.children.length] ∧
    getAt (addThought st kind content conf).1.reasoningTree
        (addThought st kind content conf).1.cursor =
      some (.node { id := st.nextId, thought := (addThought st kind content conf).2
                    isExplored := false, confidence := jsOr conf } []) ∧
    (addThought st kind content conf).1.thoughts =
      st.thoughts ++ [(addThought st kind content conf).2] ∧
    (addThought st kind content conf).1.nextId = st.nextId + 1 := by
  refine ⟨?_, ?_, ?_, ?_, ?_, ?_, ?_⟩ <;>
    simp only [addThought, hcur] <;>
    first
      | rfl
      | exact getAt_insertAt_self _ st.cursor st.reasoningTree cur hcur

theorem addPathThoughts_chain :
    ∀ (ps : List PathGen) (st : ResearchStateM) (cur : ReasoningNode),
      getAt st.reasoningTree st.cursor = some cur →
      ((addPathThoughts st ps).2.map Thought.parentId) =
        ((cur.label.id :: (addPathThoughts st ps).2.map Thought.id).dropLast).map some := by
  intro ps
  induction ps with
  | nil => intro st cur _; simp [addPathThoughts]
  | cons p ps ih =>
      intro st cur hcur
      obtain ⟨hid, hpar, _, _, hcur2, _, _⟩ := addThought_spec hcur .thought
        ("Path: " ++ p.path ++ "\nRationale: " ++ p.rationale)
        (some (promiseConfidence p.promiseLevel))
      have ihx := ih (addThought st .thought
        ("Path: " ++ p.path ++ "\nRationale: " ++ p.rationale)
        (some (promiseConfidence p.promiseLevel))).1 _ hcur2
      simp only [ReasoningNode.label] at ihx
      simp only [addPathThoughts, List.map_cons, hpar, ihx, ← hid]
      cases hr : (addPathThoughts (addThought st .thought
        ("Path: " ++ p.path ++ "\nRationale: " ++ p.rationale)
        (some (promiseConfidence p.promiseLevel))).1 ps).2 with
      | nil => simp
      | cons a rest => simp

theorem nudge_true_le (c : Rat) : nudge c true ≤ 1 := by
  simp only [nudge, if_pos]
  exact min_le_right _ _

theorem nudge_false_ge (c : Rat) : 1 / 10 ≤ nudge c false := by
  simp only [nudge, Bool.false_eq_true, if_neg, if_false]
  exact le_max_right _ _

theorem nudge_mem {c : Rat} (h1 : 1 / 10 ≤ c) (h2 : c ≤ 1) (b : Bool) :
    1 / 10 ≤ nudge c b ∧ nudge c b ≤ 1 := by
  cases b with
  | true =>
      refine ⟨?_, nudge_true_le c⟩
      simp only [nudge, if_pos]
      refine le_min ?_ (by norm_num)
      linarith
  | false =>
      refine ⟨nudge_false_ge c, ?_⟩
      simp only [nudge, Bool.false_eq_true, if_neg, if_false]
      refine max_le ?_ (by norm_num)
      linarith

theorem nudge_foldl_mem {c : Rat} (h1 : 1 / 10 ≤ c) (h2 : c ≤ 1) :
    ∀ bs : List Bool, 1 / 10 ≤ bs.foldl nudge c ∧ bs.foldl nudge c ≤ 1 := by
  intro bs
  induction bs generalizing c with
  | nil => exact ⟨h1, h2⟩
  | cons b bs ih =>
      obtain ⟨g1, g2⟩ := nudge_mem h1 h2 b
      simpa [List.foldl_cons] using ih g1 g2

theorem evaluateScore_mem (text : String) :
    0 ≤ evaluateScore text ∧ evaluateScore text ≤ 1 := by
  unfold evaluateScore
  constructor
  · exact le_max_left _ _
  · exact max_le (by norm_num) (min_le_left _ _)

theorem researchLoopFrom_le (scores : Nat → Rat) (replies : Nat → String) :
    ∀ (rem n : Nat), researchLoopFrom scores replies rem n ≤ n + rem := by
  intro rem
  induction rem with
  | zero => intro n; simp [researchLoopFrom]
  | succ m ih =>
      intro n
      simp only [researchLoopFrom]
      by_cases h : (4 : Rat) / 5 < scores (n + 1) ∧ 5 < n + 1 ∧
          shouldContinueResearch (replies (n + 1)) = false
      · rw [if_pos h]; omega
      · rw [if_neg h]
        have := ih (n + 1)
        omega

theorem researchLoopFrom_ge (scores : Nat → Rat) (replies : Nat → String) :
    ∀ (rem n : Nat), n ≤ researchLoopFrom scores replies rem n := by
  intro rem
  induction rem with
  | zero => intro n; simp [researchLoopFrom]
  | succ m ih =>
      intro n
      simp only [researchLoopFrom]
      by_cases h : (4 : Rat) / 5 < scores (n + 1) ∧ 5 < n + 1 ∧
          shouldContinueResearch (replies (n + 1)) = false
      · rw [if_pos h]; omega
      · rw [if_neg h]
        have := ih (n + 1)
        omega

theorem researchLoopFrom_break (scores : Nat → Rat) (replies : Nat → String) :
    ∀ (rem n m : Nat), researchLoopFrom scores replies rem n = m → m < n + rem →
      (4 : Rat) / 5 < scores m ∧ 5 < m ∧
        shouldContinueResearch (replies m) = false := by
  intro rem
  induction rem with
  | zero =>
      intro n m h hlt
      simp [researchLoopFrom] at h
      omega
  | succ k ih =>
      intro n m h hlt
      simp only [researchLoopFrom] at h
      by_cases hc : (4 : Rat) / 5 < scores (n + 1) ∧ 5 < n + 1 ∧
          shouldContinueResearch (replies (n + 1)) = false
      · rw [if_pos hc] at h
        subst h
        exact hc
      · rw [if_neg hc] at h
        have hge := researchLoopFrom_ge scores replies k (n + 1)
        rw [h] at hge
        exact ih (n + 1) m h (by omega)

/-! Section: Claim theorems -/

/-- C4: for every score and every value of the random draw, `decideNextAction`
returns `continue` whenever the score is at least 0.7; returns `continue` or
`explore_new` (never `backtrack`) when the score is in [0.4, 0.7); and returns
`backtrack` or `explore_new` (never `continue`) when the score is below 0.4.
In particular score 0.70 always yields `continue`, score 0.40 never yields
`backtrack`, and score 0.39 never yields `continue`. -/
theorem c4_decideNextAction_policy (score r : Rat) :
    (score ≥ 7 / 10 → decideNextAction score r = .continue) ∧
    (2 / 5 ≤ score → score < 7 / 10 →
      decideNextAction score r = .continue ∨ decideNextAction score r = .explore_new) ∧
    (score < 2 / 5 →
      decideNextAction score r = .backtrack ∨ decideNextAction score r = .explore_new) ∧
    decideNextAction (7 / 10) r = .continue ∧
    decideNextAction (2 / 5) r ≠ .backtrack ∧
    decideNextAction (39 / 100) r ≠ .continue := by
  refine ⟨?_, ?_, ?_, ?_, ?_, ?_⟩
  · intro h
    simp [decideNextAction, h]
  · intro h1 h2
    unfold decideNextAction
    rw [if_neg (by linarith), if_pos (by linarith)]
    by_cases hr : r < 7 / 10
    · exact Or.inl (by rw [if_pos hr])
    · exact Or.inr (by rw [if_neg hr])
  · intro h1
    unfold decideNextAction
    rw [if_neg (by linarith), if_neg (by linarith)]
    by_cases hr : r < 1 / 2
    · exact Or.inl (by rw [if_pos hr])
    · exact Or.inr (by rw [if_neg hr])
  · simp [decideNextAction]
  · unfold decideNextAction
    rw [if_neg (by norm_num), if_pos (by norm_num)]
    by_cases hr : r < 7 / 10
    · rw [if_pos hr]; simp
    · rw [if_neg hr]; simp
  · unfold decideNextAction
    rw [if_neg (by norm_num), if_neg (by norm_num)]
    by_cases hr : r < 1 / 2
    · rw [if_pos hr]; simp
    · rw [if_neg hr]; simp

/-- Witness for C4 at concrete inputs: score 0.70 with draw 0.5 continues,
and score 0.39 with draw 0.5 never continues (it backtracks or explores). -/
theorem c4_decideNextAction_policy_witness :
    decideNextAction (7 / 10) (1 / 2) = .continue ∧
    (decideNextAction (39 / 100) (1 / 2) = .backtrack ∨
      decideNextAction (39 / 100) (1 / 2) = .explore_new) := by
  refine ⟨(c4_decideNextAction_policy (7 / 10) (1 / 2)).1 (by norm_num),
    (c4_decideNextAction_policy (39 / 100) (1 / 2)).2.2.1 (by norm_num)⟩

unseal Rat.inv Rat.mul Rat.add Rat.sub in
/-- C5 counterexample: when the evaluation oracle replies "8/10", the score
computed by `evaluateResults` is 1, not 0.8 — the regex
`([0-9]*\.?[0-9]+)` matches just "8", and 8 clamps to 1. -/
theorem c5_evaluateScore_counterexample :
    evaluateScore "8/10" = 1 ∧ ¬ evaluateScore "8/10" = 4 / 5 := by
  constructor <;> decide

unseal Rat.inv Rat.mul Rat.add Rat.sub in
/-- C5 amended: the usefulness score is the first numeric token of the oracle
reply (0.5 when the reply holds no number), clamped to [0,1] — so it always
lies in [0,1], and a protocol-following reply "0.8" yields exactly 0.8; but
the reply "8/10" yields 1.0, not 0.8, because only "8" is matched. -/
theorem c5_evaluateScore_amended :
    (∀ text : String, 0 ≤ evaluateScore text ∧ evaluateScore text ≤ 1) ∧
    evaluateScore "0.8" = 4 / 5 ∧
    evaluateScore "8/10" = 1 := by
  refine ⟨evaluateScore_mem, by decide, by decide⟩

/-- C2 counterexample: when the structured tool-selection oracle returns a
null output (parse failure), `selectTool` returns null — not the `searchWeb`
fallback request with the topic as query. -/
theorem c2_selectTool_counterexample :
    (selectTool "X" [] (.ok none)).2 = none ∧
    ¬ (selectTool "X" [] (.ok none)).2 =
        some { name := "searchWeb", input := .queryInput "X" } := by
  exact ⟨rfl, by simp [selectTool]⟩

/-- C2 amended: `selectTool` returns the deterministic fallback — the
`searchWeb` tool with the current research topic as query — exactly when the
structured oracle throws; when the oracle returns a null output it returns
null instead (and `executeReActCycle` then throws, inside its try block,
"Failed to select appropriate tool"). -/
theorem c2_selectTool_amended (topic : String) (usage : List (String × Nat)) :
    (∀ e : String,
      selectTool topic usage (.error e) =
        (bumpUsage usage "searchWeb",
         some { name := "searchWeb", input := .queryInput topic })) ∧
    selectTool topic usage (.ok none) = (usage, none) := by
  exact ⟨fun _ => rfl, rfl⟩

unseal Rat.inv Rat.mul Rat.add Rat.sub in
/-- C9 counterexample: `addThought` stores an out-of-range confidence (1.5)
unchanged; no clamping to [0,1] happens. -/
theorem c9_addThought_counterexample :
    (addThought (initState "X") .thought "c" (some (3 / 2))).2.confidence =
      some (3 / 2) ∧
    ¬ ∃ v : Rat,
        (addThought (initState "X") .thought "c" (some (3 / 2))).2.confidence =
          some v ∧ 0 ≤ v ∧ v ≤ 1 := by
  constructor
  · rfl
  · rintro ⟨v, hv, _, h1⟩
    rw [show (addThought (initState "X") .thought "c" (some (3 / 2))).2.confidence =
      some (3 / 2) from rfl] at hv
    cases hv
    norm_num at h1

/-- C9 amended: `addThought` stores the supplied confidence value unchanged
(the code performs no clamping); consequently the stored confidence lies in
[0,1] exactly when the supplied value already does. -/
theorem c9_addThought_confidence_amended (st : ResearchStateM) (kind : TType)
    (content : String) (v : Rat) :
    (addThought st kind content (some v)).2.confidence = some v ∧
    (0 ≤ v → v ≤ 1 →
      ∃ w, (addThought st kind content (some v)).2.confidence = some w ∧
        0 ≤ w ∧ w ≤ 1) := by
  have hconf : (addThought st kind content (some v)).2.confidence = some v := by
    cases h : getAt st.reasoningTree st.cursor <;> simp [addThought, h]
  exact ⟨hconf, fun h0 h1 => ⟨v, hconf, h0, h1⟩⟩

unseal Rat.inv Rat.mul Rat.add Rat.sub in
/-- Witness for C9 (amended) at a concrete input: confidence 0.5 is stored
unchanged and lies in [0,1]. -/
theorem c9_addThought_confidence_amended_witness :
    (addThought (initState "X") .thought "c" (some (1 / 2))).2.confidence =
      some (1 / 2) ∧
    ∃ w, (addThought (initState "X") .thought "c" (some (1 / 2))).2.confidence =
        some w ∧ 0 ≤ w ∧ w ≤ 1 := by
  have h := c9_addThought_confidence_amended (initState "X") .thought "c" (1 / 2)
  exact ⟨h.1, h.2 (by norm_num) (by norm_num)⟩

/-- C7: `markCurrentNodeExplored(success)` marks the current node explored and
replaces its confidence by `min(c + 0.2, 1)` on success or `max(c - 0.2, 0.1)`
on failure (the `nudge` function), leaving the cursor in place; a success call
never leaves the confidence above 1.0, a failure call never leaves it below
0.1, and from any confidence in [0.1, 1] every sequence of repeated calls on
the same node keeps it in [0.1, 1]. -/
theorem c7_markCurrentNodeExplored_bounded :
    (∀ (st : ResearchStateM) (b : Bool), Reachable st →
      ∃ s, getAt st.reasoningTree st.cursor = some s ∧
        (markCurrentNodeExplored st b).cursor = st.cursor ∧
        getAt (markCurrentNodeExplored st b).reasoningTree st.cursor =
          some (.node { s.label with
                        isExplored := true,
                        confidence := nudge s.label.confidence b } s.children)) ∧
    (∀ c : Rat, nudge c true ≤ 1) ∧
    (∀ c : Rat, 1 / 10 ≤ nudge c false) ∧
    (∀ (c : Rat) (bs : List Bool), 1 / 10 ≤ c → c ≤ 1 →
      1 / 10 ≤ bs.foldl nudge c ∧ bs.foldl nudge c ≤ 1) := by
  refine ⟨?_, nudge_true_le, nudge_false_ge, fun c bs h1 h2 => nudge_foldl_mem h1 h2 bs⟩
  intro st b h
  obtain ⟨_, _, ⟨cur, hcur⟩, _, _⟩ := reachable_treeInv st h
  refine ⟨cur, hcur, ?_, ?_⟩
  · simp [markCurrentNodeExplored, hcur]
  · simp only [markCurrentNodeExplored, hcur]
    exact getAt_updateAt_self _ st.cursor st.reasoningTree cur hcur

unseal Rat.inv Rat.mul Rat.add Rat.sub in
/-- Witness for C7: on the fresh session root (confidence 0.5) a success call
yields the expected explored node, and a concrete call sequence starting at
0.5 stays within [0.1, 1]. -/
theorem c7_markCurrentNodeExplored_bounded_witness :
    (∃ s, getAt (initState "X").reasoningTree (initState "X").cursor = some s ∧
      (markCurrentNodeExplored (initState "X") true).cursor = (initState "X").cursor ∧
      getAt (markCurrentNodeExplored (initState "X") true).reasoningTree
          (initState "X").cursor =
        some (.node { s.label with
                      isExplored := true,
                      confidence := nudge s.label.confidence true } s.children)) ∧
    1 / 10 ≤ List.foldl nudge (1 / 2) [true, true, true, false] ∧
    List.foldl nudge (1 / 2) [true, true, true, false] ≤ 1 := by
  obtain ⟨h1, _, _, h4⟩ := c7_markCurrentNodeExplored_bounded
  obtain ⟨g1, g2⟩ := h4 (1 / 2) [true, true, true, false] (by norm_num) (by norm_num)
  exact ⟨h1 (initState "X") true (Reachable.init "X"), g1, g2⟩

/-- C6: in every reachable session state, `navigateToNode` succeeds on the id
of any logged thought (every id returned by a prior `addThought` is logged),
repositioning the cursor onto the node carrying exactly that id and changing
nothing else; on an id not present in the tree it returns failure and the
whole state is unchanged. -/
theorem c6_navigateToNode_total (st : ResearchStateM) (h : Reachable st) (i : Nat) :
    ((∃ t ∈ st.thoughts, t.id = i) →
      (navigateToNode st i).2 = true ∧
      (∃ s, getAt (navigateToNode st i).1.reasoningTree
          (navigateToNode st i).1.cursor = some s ∧ s.label.id = i) ∧
      (navigateToNode st i).1 = { st with cursor := (navigateToNode st i).1.cursor }) ∧
    (i ∉ treeIds st.reasoningTree → navigateToNode st i = (st, false)) := by
  obtain ⟨_, _, _, hth, _⟩ := reachable_treeInv st h
  constructor
  · rintro ⟨t, ht, rfl⟩
    have hmem : t.id ∈ treeIds st.reasoningTree := hth t ht
    cases hf : findPath t.id st.reasoningTree with
    | none => exact absurd hmem ((findPath_none _ _).mp hf)
    | some p =>
        obtain ⟨s, hs, hid⟩ := findPath_sound _ _ p hf
        refine ⟨?_, ⟨s, ?_, hid⟩, ?_⟩ <;> simp [navigateToNode, hf, hs]
  · intro hni
    have hf : findPath i st.reasoningTree = none := (findPath_none _ _).mpr hni
    simp [navigateToNode, hf]

/-- The session state used by the C6 witness: a fresh session on topic "X"
followed by one `addThought` (its thought gets id 1). -/
def c6State : ResearchStateM := (addThought (initState "X") .thought "A" none).1

/-- Witness for C6: in `c6State`, navigating to the id of the added thought
succeeds and lands on that node; navigating to the unknown id 99 fails and
returns the state unchanged. -/
theorem c6_navigateToNode_total_witness :
    ((navigateToNode c6State 1).2 = true ∧
      (∃ s, getAt (navigateToNode c6State 1).1.reasoningTree
          (navigateToNode c6State 1).1.cursor = some s ∧ s.label.id = 1) ∧
      (navigateToNode c6State 1).1 =
        { c6State with cursor := (navigateToNode c6State 1).1.cursor }) ∧
    navigateToNode c6State 99 = (c6State, false) := by
  have hreach : Reachable c6State :=
    Reachable.add (initState "X") .thought "A" none (Reachable.init "X")
  refine ⟨(c6_navigateToNode_total c6State hreach 1).1
    ⟨(addThought (initState "X") .thought "A" none).2, by decide, by decide⟩,
    (c6_navigateToNode_total c6State hreach 99).2 (by decide)⟩

/-- C8: in every reachable session state the reasoning structure is a strict
tree rooted at the session root: node ids are pairwise distinct (so no node
appears twice or hangs under two parents) and every id present in the tree is
reached from the root by exactly one path; the root keeps the session root id
0. -/
theorem c8_tree_strict (st : ResearchStateM) (h : Reachable st) :
    (treeIds st.reasoningTree).Nodup ∧
    st.reasoningTree.label.id = 0 ∧
    ∀ i ∈ treeIds st.reasoningTree,
      ∃! p : List Nat, ∃ s, getAt st.reasoningTree p = some s ∧ s.label.id = i := by
  obtain ⟨hnd, _, _, _, hroot⟩ := reachable_treeInv st h
  refine ⟨hnd, hroot, ?_⟩
  intro i hi
  cases hf : findPath i st.reasoningTree with
  | none => exact absurd hi ((findPath_none _ _).mp hf)
  | some p =>
      obtain ⟨s, hs, hid⟩ := findPath_sound _ _ p hf
      refine ⟨p, ⟨s, hs, hid⟩, ?_⟩
      rintro q ⟨s', hs', hid'⟩
      exact getAt_id_inj q st.reasoningTree p s' s hnd hs' hs (by rw [hid', hid])

/-- The session state used by the C8 witness: two `addThought` calls on a
fresh session (ids 1 and 2 in a chain under the root). -/
def c8State : ResearchStateM :=
  (addThought (addThought (initState "Y") .thought "A" none).1 .observation "B" none).1

/-- Witness for C8: the two-thought session state has pairwise-distinct node
ids, root id 0, and a unique root path for the node with id 2. -/
theorem c8_tree_strict_witness :
    (treeIds c8State.reasoningTree).Nodup ∧
    c8State.reasoningTree.label.id = 0 ∧
    ∃! p : List Nat, ∃ s, getAt c8State.reasoningTree p = some s ∧ s.label.id = 2 := by
  have hreach : Reachable c8State :=
    Reachable.add _ .observation "B" none
      (Reachable.add (initState "Y") .thought "A" none (Reachable.init "Y"))
  obtain ⟨h1, h2, h3⟩ := c8_tree_strict c8State hreach
  exact ⟨h1, h2, h3 2 (by decide)⟩

/-- C10: `addThought` always moves the cursor onto the node it creates, so a
second `addThought` with no intervening navigation attaches its thought under
the one just created; consequently the thoughts recorded by the path loop of
`generateReasoningPaths` form a single descending chain — the parent of each
thought is the previous thought, and only the first hangs under the pre-cycle
current node — not sibling children. -/
theorem c10_consecutive_addThought_chain :
    (∀ st : ResearchStateM, Reachable st →
      ∀ (k1 : TType) (c1 : String) (f1 : Option Rat)
        (k2 : TType) (c2 : String) (f2 : Option Rat),
        (addThought (addThought st k1 c1 f1).1 k2 c2 f2).2.parentId =
          some (addThought st k1 c1 f1).2.id) ∧
    (∀ st : ResearchStateM, Reachable st → ∀ (ps : List PathGen) (ts : List Thought),
      (generateReasoningPaths st (.ok (some ps))).2 = .ok ts →
      ∃ cur, getAt st.reasoningTree st.cursor = some cur ∧
        ts.map Thought.parentId =
          ((cur.label.id :: ts.map Thought.id).dropLast).map some) := by
  constructor
  · intro st h k1 c1 f1 k2 c2 f2
    obtain ⟨_, _, ⟨cur, hcur⟩, _, _⟩ := reachable_treeInv st h
    obtain ⟨hid1, _, _, _, hcur2, _, _⟩ := addThought_spec hcur k1 c1 f1
    obtain ⟨_, hpar2, _, _, _, _, _⟩ := addThought_spec hcur2 k2 c2 f2
    rw [hpar2, ReasoningNode.label, hid1]
  · intro st h ps ts hts
    obtain ⟨_, _, ⟨cur, hcur⟩, _, _⟩ := reachable_treeInv st h
    simp only [generateReasoningPaths] at hts
    have hts2 := Except.ok.inj hts
    refine ⟨cur, hcur, ?_⟩
    rw [← hts2]
    exact addPathThoughts_chain ps
      (updateStatus st .thinking "Reasoning Paths"
        (some "Generating 3 potential reasoning paths")) cur hcur

/-- The oracle path output used by the C10 witness. -/
def c10Paths : List PathGen :=
  [{ path := "p1", rationale := "r1", promiseLevel := .high },
   { path := "p2", rationale := "r2", promiseLevel := .low }]

/-- The thoughts created by `generateReasoningPaths` on a fresh session with
the C10 witness paths. -/
def c10Ts : List Thought :=
  (addPathThoughts (updateStatus (initState "Z") .thinking "Reasoning Paths"
    (some "Generating 3 potential reasoning paths")) c10Paths).2

unseal Rat.inv Rat.mul Rat.add Rat.sub in
/-- Witness for C10: on a fresh session, the second of two consecutive
`addThought` calls hangs under the first, and the two path thoughts generated
by `generateReasoningPaths` form a chain below the root. -/
theorem c10_consecutive_addThought_chain_witness :
    (addThought (addThought (initState "Z") .thought "A" none).1 .thought "B" none).2.parentId =
      some (addThought (initState "Z") .thought "A" none).2.id ∧
    ∃ cur, getAt (initState "Z").reasoningTree (initState "Z").cursor = some cur ∧
      c10Ts.map Thought.parentId =
        ((cur.label.id :: c10Ts.map Thought.id).dropLast).map some := by
  obtain ⟨h1, h2⟩ := c10_consecutive_addThought_chain
  exact ⟨h1 (initState "Z") (Reachable.init "Z") .thought "A" none .thought "B" none,
    h2 (initState "Z") (Reachable.init "Z") c10Paths c10Ts rfl⟩

/-- The per-cycle scores of the C3 termination scenario: cycles 1 to 5 score
0.5, cycle 6 scores 0.85, later cycles score 0.5. -/
def c3ScenarioScores : Nat → Rat :=
  fun n => if n ≤ 5 then 1 / 2 else if n = 6 then 17 / 20 else 1 / 2

/-- The sufficiency-oracle replies of the C3 termination scenario: the oracle
always judges the gathered information insufficient, which per the prompt
protocol of `shouldContinueResearch` is the reply YES (more research is
needed). -/
def c3ScenarioReplies : Nat → String := fun _ => "YES"

unseal Rat.inv Rat.mul Rat.add Rat.sub in
/-- C3: the research loop runs at most `maxReasoningCycles` (20) cycles; it
stops earlier only when the stopping cycle scored strictly above 0.8, more
than 5 cycles had run, and the sufficiency check reported enough information
(a reply without YES); in the scenario where cycles 1-5 score 0.5, cycle 6
scores 0.85 and the sufficiency oracle keeps judging the information
insufficient, the loop continues past cycle 6 (and runs all 20 cycles). -/
theorem c3_termination_policy :
    (∀ (scores : Nat → Rat) (replies : Nat → String),
      researchCycles scores replies ≤ maxReasoningCycles) ∧
    (∀ (scores : Nat → Rat) (replies : Nat → String) (m : Nat),
      researchCycles scores replies = m → m < maxReasoningCycles →
      (4 : Rat) / 5 < scores m ∧ 5 < m ∧
        shouldContinueResearch (replies m) = false) ∧
    researchCycles c3ScenarioScores c3ScenarioReplies = 20 ∧
    6 < researchCycles c3ScenarioScores c3ScenarioReplies := by
  refine ⟨?_, ?_, by decide, by decide⟩
  · intro s r
    simpa using researchLoopFrom_le s r maxReasoningCycles 0
  · intro s r m hm hlt
    exact researchLoopFrom_break s r maxReasoningCycles 0 m hm (by omega)

/-- The per-cycle scores of the C3 witness run: every cycle scores 0.9. -/
def c3WitnessScores : Nat → Rat := fun _ => 9 / 10

/-- The sufficiency replies of the C3 witness run: the oracle judges the
information sufficient (reply NO per the prompt protocol). -/
def c3WitnessReplies : Nat → String := fun _ => "NO"

unseal Rat.inv Rat.mul Rat.add Rat.sub in
/-- Witness for C3: with every cycle scoring 0.9 and the sufficiency oracle
judging the information sufficient, the loop stops after cycle 6 — the first
cycle past the minimum — and the two-key exit condition indeed held there. -/
theorem c3_termination_policy_witness :
    researchCycles c3WitnessScores c3WitnessReplies = 6 ∧
    ((4 : Rat) / 5 < c3WitnessScores 6 ∧ 5 < 6 ∧
      shouldContinueResearch (c3WitnessReplies 6) = false) := by
  refine ⟨by decide, (c3_termination_policy).2.1 c3WitnessScores c3WitnessReplies 6
    (by decide) (by decide)⟩

theorem addThought_thoughts (st : ResearchStateM) (kind : TType) (content : String)
    (conf : Option Rat) :
    (addThought st kind content conf).1.thoughts =
      st.thoughts ++ [(addThought st kind content conf).2] := by
  cases h : getAt st.reasoningTree st.cursor <;> simp [addThought, h]

theorem addThought_snd (st : ResearchStateM) (kind : TType) (content : String)
    (conf : Option Rat) :
    (addThought st kind content conf).2 =
      { id := st.nextId, kind := kind, content := content, confidence := conf
        parentId := (getAt st.reasoningTree st.cursor).map (fun n => n.label.id) } := by
  cases h : getAt st.reasoningTree st.cursor <;> simp [addThought, h]

/-- The oracle replies of the C1 counterexample: the path-generation call
throws. -/
def c1ErrOracles : CycleOracles :=
  { pathsReply := .error "network failure"
    toolSelReply := .ok none
    evalReply := .ok "0.5" }

unseal Rat.inv Rat.mul Rat.add Rat.sub in
/-- C1 counterexample: when the path-generation oracle fails, the error is
NOT caught at the cycle boundary — `executeReActCycle` rethrows it to the
caller, no observation thought is appended, and no
`(error, 0.1, explore_new)` result is produced. -/
theorem c1_cycle_counterexample :
    (executeReActCycle (initState "X") [] [] c1ErrOracles 0).2 =
      .error "network failure" ∧
    (executeReActCycle (initState "X") [] [] c1ErrOracles 0).1.1.thoughts =
      (initState "X").thoughts := by
  exact ⟨rfl, rfl⟩

/-- C1 amended: failures of the two steps that run before the try block —
path generation (a thrown oracle error or a null structured output) and
best-path selection (an empty candidate list, the only way
`selectBestPath` yields null) — propagate out of `executeReActCycle` with
the state log unchanged; any failure thrown inside the try block (tool
selection returning null, tool not found, tool execution, result
evaluation) is caught at the cycle boundary: exactly one `observation`
thought with confidence 0.1 is appended through the state manager and the
cycle returns normally with the error object, score 0.1 and next action
`explore_new`. -/
theorem c1_cycle_error_handling :
    (∀ (st : ResearchStateM) (usage : List (String × Nat)) (tools : List ToolImpl)
      (oc : CycleOracles) (r : Rat) (e : String),
      oc.pathsReply = .error e →
      (executeReActCycle st usage tools oc r).2 = .error e ∧
      (executeReActCycle st usage tools oc r).1.1.thoughts = st.thoughts) ∧
    (∀ (st : ResearchStateM) (usage : List (String × Nat)) (tools : List ToolImpl)
      (oc : CycleOracles) (r : Rat),
      oc.pathsReply = .ok none →
      (executeReActCycle st usage tools oc r).2 =
        .error "Failed to generate reasoning paths" ∧
      (executeReActCycle st usage tools oc r).1.1.thoughts = st.thoughts) ∧
    (∀ (st : ResearchStateM) (usage : List (String × Nat)) (tools : List ToolImpl)
      (oc : CycleOracles) (r : Rat),
      oc.pathsReply = .ok (some []) →
      (executeReActCycle st usage tools oc r).2 =
        .error "Failed to select a reasoning path" ∧
      (executeReActCycle st usage tools oc r).1.1.thoughts = st.thoughts) ∧
    (∀ (st : ResearchStateM) (usage : List (String × Nat)) (tools : List ToolImpl)
      (oc : CycleOracles) (r : Rat) (st1 : ResearchStateM) (paths : List Thought)
      (st3 : ResearchStateM) (u3 : List (String × Nat)) (e : String),
      generateReasoningPaths st oc.pathsReply = (st1, .ok paths) →
      paths ≠ [] →
      reactTryBlock (updateStatus st1 .thinking "Tool Selection"
          (some "Selecting appropriate tool based on reasoning")) usage tools oc r =
        (st3, u3, .error e) →
      executeReActCycle st usage tools oc r =
        (((addThought st3 .observation ("Error during reasoning cycle: " ++ e)
            (some (1 / 10))).1, u3),
         .ok { result := .error e, score := 1 / 10, nextAction := .explore_new }) ∧
      (addThought st3 .observation ("Error during reasoning cycle: " ++ e)
          (some (1 / 10))).1.thoughts =
        st3.thoughts ++ [(addThought st3 .observation
          ("Error during reasoning cycle: " ++ e) (some (1 / 10))).2] ∧
      (addThought st3 .observation ("Error during reasoning cycle: " ++ e)
          (some (1 / 10))).2.kind = .observation ∧
      (addThought st3 .observation ("Error during reasoning cycle: " ++ e)
          (some (1 / 10))).2.confidence = some (1 / 10)) := by
  refine ⟨?_, ?_, ?_, ?_⟩
  · intro st usage tools oc r e h
    constructor <;> simp [executeReActCycle, generateReasoningPaths, h, updateStatus]
  · intro st usage tools oc r h
    constructor <;> simp [executeReActCycle, generateReasoningPaths, h, updateStatus]
  · intro st usage tools oc r h
    constructor <;>
      simp [executeReActCycle, generateReasoningPaths, h, addPathThoughts,
        selectBestPath, updateStatus]
  · intro st usage tools oc r st1 paths st3 u3 e h1 hne h3
    have hsel : ∃ sel, selectBestPath paths = some sel := by
      cases paths with
      | nil => exact absurd rfl hne
      | cons p ps => exact ⟨_, rfl⟩
    obtain ⟨sel, hsel⟩ := hsel
    refine ⟨?_, addThought_thoughts st3 .observation _ (some (1 / 10)), ?_, ?_⟩
    · simp only [executeReActCycle, h1, hsel, h3]
    · rw [addThought_snd]
    · rw [addThought_snd]

/-- The oracle replies of the C1 witness: path generation succeeds with one
high-promise path, tool selection picks a tool that is not registered, so the
tool lookup throws inside the try block. -/
def c1WOracles : CycleOracles :=
  { pathsReply := .ok (some [{ path := "p", rationale := "r", promiseLevel := .high }])
    toolSelReply := .ok (some { toolName := "nosuch", reason := "because"
                                parameters := .other "x" })
    evalReply := .ok "0.5" }

/-- The state after path generation in the C1 witness run. -/
def c1WSt1 : ResearchStateM :=
  (generateReasoningPaths (initState "X") c1WOracles.pathsReply).1

/-- The thoughts created by path generation in the C1 witness run. -/
def c1WPaths : List Thought :=
  (addPathThoughts (updateStatus (initState "X") .thinking "Reasoning Paths"
    (some "Generating 3 potential reasoning paths"))
    [{ path := "p", rationale := "r", promiseLevel := .high }]).2

/-- The try-block outcome of the C1 witness run (its state and usage map). -/
def c1WTry : ResearchStateM × List (String × Nat) × Except String CycleResult :=
  reactTryBlock (updateStatus c1WSt1 .thinking "Tool Selection"
    (some "Selecting appropriate tool based on reasoning")) [] [] c1WOracles 0

unseal Rat.inv Rat.mul Rat.add Rat.sub in
/-- Witness for C1 (amended): in the concrete run where the selected tool is
not registered, the thrown "Tool not found" error is caught: the cycle
returns the error object with score 0.1 and `explore_new`, appending exactly
one 0.1-confidence observation. -/
theorem c1_cycle_error_handling_witness :
    executeReActCycle (initState "X") [] [] c1WOracles 0 =
      (((addThought c1WTry.1 .observation
          ("Error during reasoning cycle: " ++ "Tool not found: nosuch")
          (some (1 / 10))).1, c1WTry.2.1),
       .ok { result := .error "Tool not found: nosuch", score := 1 / 10
             nextAction := .explore_new }) ∧
    (addThought c1WTry.1 .observation
        ("Error during reasoning cycle: " ++ "Tool not found: nosuch")
        (some (1 / 10))).1.thoughts =
      c1WTry.1.thoughts ++ [(addThought c1WTry.1 .observation
        ("Error during reasoning cycle: " ++ "Tool not found: nosuch")
        (some (1 / 10))).2] ∧
    (addThought c1WTry.1 .observation
        ("Error during reasoning cycle: " ++ "Tool not found: nosuch")
        (some (1 / 10))).2.kind = .observation ∧
    (addThought c1WTry.1 .observation
        ("Error during reasoning cycle: " ++ "Tool not found: nosuch")
        (some (1 / 10))).2.confidence = some (1 / 10) := by
  exact (c1_cycle_error_handling).2.2.2 (initState "X") [] [] c1WOracles 0
    c1WSt1 c1WPaths c1WTry.1 c1WTry.2.1 "Tool not found: nosuch"
    rfl (by decide) rfl

end DeepResearch
